import Mathlib

/-!
Verification of the domain-ontology manager (src/ontology/domain_manager.rs).

The Rust code is embedded shallowly: strings are Lean `String`s manipulated
through character lists, the `HashMap` of validation rules is an
insertion-ordered association list with replace-on-insert, `u32` counters are
`Nat` with explicit reduction modulo `2 ^ 32` where the code performs `u32`
arithmetic, and every external collaborator (file system, SHACL validator,
RDF store, SPARQL engine) is supplied as an explicit environment value.
-/

/-- Whitespace predicate used for trimming (models the whitespace characters
relevant to str::trim on the ASCII ontology text this module handles). -/
def isWS (c : Char) : Bool := c == ' ' || c == '\t' || c == '\n' || c == '\r'

/-- Model of Rust str::trim at the character level. -/
def trimL (l : List Char) : List Char :=
  ((l.dropWhile isWS).reverse.dropWhile isWS).reverse

/-- str::trim on strings. -/
def trimS (s : String) : String := (trimL s.toList).asString

/-- Boolean prefix test on character lists (models str::starts_with). -/
def isPrefixL : List Char → List Char → Bool
  | [], _ => true
  | _ :: _, [] => false
  | a :: as, b :: bs => a == b && isPrefixL as bs

/-- str::starts_with. -/
def startsWithS (s pat : String) : Bool := isPrefixL pat.toList s.toList

/-- str::ends_with. -/
def endsWithS (s pat : String) : Bool := isPrefixL pat.toList.reverse s.toList.reverse

/-- First index at which pat occurs as a contiguous substring
(models str::find for a string pattern). -/
def findSubL (pat : List Char) : List Char → Option Nat
  | [] => if isPrefixL pat [] then some 0 else none
  | c :: cs =>
    if isPrefixL pat (c :: cs) then some 0
    else (findSubL pat cs).map (· + 1)

/-- Substring containment on character lists (models str::contains). -/
def containsL (pat l : List Char) : Bool := (findSubL pat l).isSome

/-- str::contains on strings. -/
def containsSubS (s pat : String) : Bool := containsL pat.toList s.toList

/-- Model of Rust str::split for a non-empty string pattern: the segments
between consecutive non-overlapping occurrences, scanning left to right. -/
def splitOnStrL (pat : List Char) (l : List Char) : List (List Char) :=
  match l with
  | [] => [[]]
  | c :: cs =>
    if isPrefixL pat (c :: cs) && !pat.isEmpty then
      [] :: splitOnStrL pat (cs.drop (pat.length - 1))
    else
      match splitOnStrL pat cs with
      | [] => [[c]]
      | r :: rs => (c :: r) :: rs
termination_by l.length
decreasing_by
  · simp only [List.length_drop, List.length_cons]; omega
  · simp only [List.length_cons]; omega

/-- str::split on strings. -/
def splitOnStrS (s pat : String) : List String :=
  (splitOnStrL pat.toList s.toList).map List.asString

/-- Model of Rust str::lines: split on a newline, drop one trailing empty
segment, and strip a trailing carriage return from each line. -/
def rustLines (s : String) : List String :=
  let parts := splitOnStrL ['\n'] s.toList
  let parts :=
    match parts.getLast? with
    | some [] => parts.dropLast
    | _ => parts
  parts.map (fun l => (if l.getLast? == some '\r' then l.dropLast else l).asString)

/-- Model of Rust str::split_once for a character pattern: split at the first
occurrence of the character, if any. -/
def splitOnceChar (s : String) (c : Char) : Option (String × String) :=
  match findSubL [c] s.toList with
  | some i => some ((s.toList.take i).asString, (s.toList.drop (i + 1)).asString)
  | none => none

/-- str::to_lowercase (character-wise, as used on ASCII file extensions). -/
def toLowerS (s : String) : String := (s.toList.map Char.toLower).asString

/-- Model of str::parse for u32: optional leading plus sign, at least one
digit, all digits, and a value below 2 ^ 32. -/
def parseU32 (s : String) : Option Nat :=
  let l :=
    match s.toList with
    | '+' :: rest => rest
    | l => l
  if !l.isEmpty && l.all Char.isDigit then
    let v := l.foldl (fun a c => a * 10 + (c.toNat - 48)) 0
    if v < 2 ^ 32 then some v else none
  else none

/-- Domain configuration (struct DomainConfig). The Rust HashMap of validation
rules is modelled as an association list with replace-on-insert, which
realises exactly the map semantics the code uses. -/
structure DomainConfig where
  domain_name : String
  description : String
  supported_transaction_types : List String
  validation_rules : List (String × String)
deriving DecidableEq

/-- DomainConfig::new. -/
def DomainConfig.new (domain_name description : String) : DomainConfig :=
  ⟨domain_name, description, [], []⟩

/-- DomainConfig::add_transaction_type: push the type unless already present. -/
def DomainConfig.add_transaction_type (c : DomainConfig) (t : String) : DomainConfig :=
  if c.supported_transaction_types.contains t then c
  else { c with supported_transaction_types := c.supported_transaction_types ++ [t] }

/-- HashMap::insert on the association-list model: replace the value at an
existing key, otherwise append the new binding. -/
def insertRule (m : List (String × String)) (k v : String) : List (String × String) :=
  if m.any (fun p => p.1 == k) then
    m.map (fun p => if p.1 == k then (k, v) else p)
  else m ++ [(k, v)]

/-- Lookup in the association-list model of the rule map. -/
def lookupRule (m : List (String × String)) (k : String) : Option String :=
  (m.find? (fun p => p.1 == k)).map Prod.snd

/-- DomainConfig::add_validation_rule. -/
def DomainConfig.add_validation_rule (c : DomainConfig) (k v : String) : DomainConfig :=
  { c with validation_rules := insertRule c.validation_rules k v }

/-- DomainConfig::supports_transaction_type. -/
def DomainConfig.supports_transaction_type (c : DomainConfig) (t : String) : Bool :=
  c.supported_transaction_types.contains t

/-- Statistics about the loaded ontology (struct OntologyStats); the three
counts are u32 values parsed below 2 ^ 32. -/
structure OntologyStats where
  class_count : Nat
  property_count : Nat
  individual_count : Nat
deriving DecidableEq

/-- OntologyStats::new (all counts zero). -/
def OntologyStats.new : OntologyStats := ⟨0, 0, 0⟩

/-- OntologyStats::total_entities: u32 addition of the three counts, modelled
as Nat addition reduced modulo 2 ^ 32. -/
def OntologyStats.total_entities (s : OntologyStats) : Nat :=
  (s.class_count + s.property_count + s.individual_count) % 2 ^ 32


/-- The subsequence of a list that keeps only the first occurrence of each
element: a declarative description of first-insertion order without
duplicates. -/
def firstDedup : List String → List String
  | [] => []
  | t :: ts => t :: (firstDedup ts).filter (fun x => x != t)

/-- List-level action of add_transaction_type on the type sequence. -/
def addT (l : List String) (t : String) : List String :=
  if l.contains t then l else l ++ [t]

/-- The eight standard transaction types seeded by load_domain_config. -/
def standard_types : List String :=
  ["Production", "Processing", "Transport", "Quality", "Transfer",
   "Environmental", "Compliance", "Governance"]

/-- Transaction-type half of the annotation-scan loop body in
extract_domain_info_from_ontology: the segment after the first occurrence of
the marker (split + nth(1)), trimmed, is added as a transaction type. -/
def scanLineTx (dc : DomainConfig) (line : String) : DomainConfig :=
  if containsSubS line "# Transaction type:" then
    match (splitOnStrS line "# Transaction type:").get? 1 with
    | some tx_type => dc.add_transaction_type (trimS tx_type)
    | none => dc
  else dc

/-- Validation-rule half of the annotation-scan loop body: the segment after
the first occurrence of the marker is split at its first equals sign; both
halves are trimmed and inserted into the rule map. Without an equals sign the
line is skipped. -/
def scanLineRule (dc : DomainConfig) (line : String) : DomainConfig :=
  if containsSubS line "# Validation rule:" then
    match (splitOnStrS line "# Validation rule:").get? 1 with
    | some rule_part =>
      match splitOnceChar rule_part '=' with
      | some nv => dc.add_validation_rule (trimS nv.1) (trimS nv.2)
      | none => dc
    | none => dc
  else dc

/-- One iteration of the annotation scan: both annotation forms are evaluated
independently on each line, transaction types first. -/
def scanLine (dc : DomainConfig) (line : String) : DomainConfig :=
  scanLineRule (scanLineTx dc line) line

/-- Description extraction in extract_domain_info_from_ontology: find the
first occurrence of the rdfs:comment marker, then the first quote at or after
it, then the next quote; the span between the quotes is the description
(character-index model of the byte-slice logic). -/
def extractDescription (s : List Char) : Option (List Char) :=
  match findSubL ("rdfs:comment".toList) s with
  | none => none
  | some comment_start =>
    match findSubL ['"'] (s.drop comment_start) with
    | none => none
    | some q =>
      let quote_start := comment_start + q + 1
      match findSubL ['"'] (s.drop quote_start) with
      | none => none
      | some quote_end => some ((s.drop quote_start).take quote_end)

/-- OntologyManager::extract_domain_info_from_ontology. The Rust function
returns Result but has no error path, so it is modelled as a total function:
description extraction first, then the line-by-line annotation scan. -/
def extract_domain_info_from_ontology (dc : DomainConfig) (ontology_content : String) :
    DomainConfig :=
  let dc :=
    match extractDescription ontology_content.toList with
    | some d => { dc with description := d.asString }
    | none => dc
  (rustLines ontology_content).foldl scanLine dc

/-- RDF serialization formats distinguished by the format detector. -/
inductive RdfFormat where
  | Turtle
  | RdfXml
  | NTriples
  | NQuads
deriving DecidableEq

/-- Per-line test of the N-Triples content heuristic: after trimming, the
line is empty, a comment, or ends in space-dot. -/
def ntLineOk (line : String) : Bool :=
  let l := trimS line
  l == "" || startsWithS l "#" || endsWithS l " ."

/-- Rust Path::extension(): the portion of the final path component after its
last dot; none when there is no dot, or the only dot is the leading one. -/
def pathExtension (p : String) : Option String :=
  let file_name := (splitOnStrL ['/'] p.toList).getLastD []
  let parts := splitOnStrL ['.'] file_name
  match parts with
  | [] => none
  | [_] => none
  | first :: _ :: _ =>
    if first.isEmpty && parts.length == 2 then none
    else some (parts.getLastD []).asString

/-- OntologyManager::detect_rdf_format. The Ok wrapper in the source is
vestigial (the function never fails), so the format is returned directly:
content-based Turtle, RDF/XML, and N-Triples checks in order, then the
file-extension fallback. -/
def detect_rdf_format (content file_path : String) : RdfFormat :=
  let trimmed_content := trimS content
  if startsWithS trimmed_content "@prefix" ||
      startsWithS trimmed_content "@base" ||
      containsSubS content "@prefix" then
    RdfFormat.Turtle
  else if startsWithS trimmed_content "<?xml" ||
      startsWithS trimmed_content "<rdf:RDF" ||
      containsSubS content "<rdf:RDF" then
    RdfFormat.RdfXml
  else if (rustLines content).all ntLineOk then
    RdfFormat.NTriples
  else
    match pathExtension file_path with
    | some extension =>
      match toLowerS extension with
      | "ttl" | "turtle" => RdfFormat.Turtle
      | "owl" | "rdf" | "xml" =>
        if containsSubS content "<?xml" || containsSubS content "<rdf:RDF" then
          RdfFormat.RdfXml
        else RdfFormat.Turtle
      | "nt" => RdfFormat.NTriples
      | "nq" => RdfFormat.NQuads
      | _ => RdfFormat.Turtle
    | none => RdfFormat.Turtle

/-- Modelled from the spec: the schema-reference configuration object
(crate::ontology::OntologyConfig, not under src/) — file paths for the core
and domain ontologies and the two SHACL shape sets, plus the ontology hash. -/
structure OntologyConfig where
  core_ontology_path : String
  domain_ontology_path : String
  core_shacl_path : String
  domain_shacl_path : String
  ontology_hash : String
deriving DecidableEq

/-- Modelled from the spec: the SHACL validator collaborator (opaque,
not copyable by sharing; carries its construction inputs). -/
structure ShaclValidator where
  core_shacl_path : String
  domain_shacl_path : String
  ontology_hash : String
deriving DecidableEq

/-- Modelled from the spec: the RDF triple store collaborator (opaque
contents; only emptiness and identity matter to the claims). -/
structure Store where
  quads : List String
deriving DecidableEq

/-- A fresh empty store (Store::new()). -/
def Store.emptyStore : Store := ⟨[]⟩

/-- Modelled from the spec: ConsistencyError (crate::ontology::error, not
under src/) carries the local hash, the peer hash, and a message. -/
structure ConsistencyError where
  local_hash : String
  network_hash : String
  message : String
deriving DecidableEq

/-- ConsistencyError::new. -/
def ConsistencyError.new (local_hash network_hash message : String) : ConsistencyError :=
  ⟨local_hash, network_hash, message⟩

/-- Modelled from the spec: OntologyError kinds used by this module
(crate::ontology::error, not under src/). -/
inductive OntologyError where
  | OntologyNotFound (path : String)
  | OntologyLoadError (path : String) (source : String)
  | OntologyParseError (path : String) (message : String)
deriving DecidableEq

/-- Decidable equality for Except values, available to concrete witnesses. -/
instance {ε α : Type} [DecidableEq ε] [DecidableEq α] : DecidableEq (Except ε α) :=
  fun a b =>
    match a, b with
    | Except.ok x, Except.ok y =>
      if h : x = y then isTrue (by rw [h]) else isFalse (by intro hc; cases hc; exact h rfl)
    | Except.error x, Except.error y =>
      if h : x = y then isTrue (by rw [h]) else isFalse (by intro hc; cases hc; exact h rfl)
    | Except.ok _, Except.error _ => isFalse (by intro hc; cases hc)
    | Except.error _, Except.ok _ => isFalse (by intro hc; cases hc)

/-- struct OntologyManager: configuration, derived domain configuration,
SHACL validator, and the loaded ontology store. -/
structure OntologyManager where
  config : OntologyConfig
  domain_config : DomainConfig
  validator : ShaclValidator
  ontology_store : Store
deriving DecidableEq

/-- Modelled from the spec: outcomes of the external collaborators consumed
by construction, clone, and reload — the config's domain_name() accessor, the
file system (fs::read_to_string), ShaclValidator::new on the two shape paths
and the hash, and the whole load_ontology_store step (file system plus RDF
store ingestion). -/
structure FsEnv where
  domain_name_of : OntologyConfig → Except OntologyError String
  read_file : String → Option String
  shacl_validator_new : String → String → String → Except String ShaclValidator
  load_ontology_store_of : OntologyConfig → Except OntologyError Store

/-- OntologyManager::load_domain_config: resolve the domain name, seed the
eight standard transaction types, and, when the domain ontology file is
readable, run the annotation scan over its text. -/
def OntologyManager.load_domain_config (env : FsEnv) (config : OntologyConfig) :
    Except OntologyError DomainConfig :=
  match env.domain_name_of config with
  | Except.error e => Except.error e
  | Except.ok domain_name =>
    let domain_config := DomainConfig.new domain_name
      ("Domain configuration for " ++ domain_name)
    let domain_config := standard_types.foldl DomainConfig.add_transaction_type domain_config
    match env.read_file config.domain_ontology_path with
    | some ontology_content =>
      Except.ok (extract_domain_info_from_ontology domain_config ontology_content)
    | none => Except.ok domain_config

/-- OntologyManager::check_ontology_consistency: succeed iff the local hash
equals the peer hash; otherwise build a ConsistencyError from both hashes and
a message naming the local domain. -/
def OntologyManager.check_ontology_consistency (m : OntologyManager)
    (network_hash : String) : Except ConsistencyError Unit :=
  if m.config.ontology_hash ≠ network_hash then
    Except.error (ConsistencyError.new m.config.ontology_hash network_hash
      ("Local ontology '" ++ m.domain_config.domain_name ++
        "' does not match network ontology. All participants must use the same domain ontology."))
  else Except.ok ()

/-- OntologyManager::reload: sequential replacement of domain_config, then
validator, then store, each sub-step committed to the manager before the next
one runs; the first failure returns, leaving earlier commits in place. The
validator error is wrapped exactly as in the source. -/
def OntologyManager.reload (env : FsEnv) (m : OntologyManager) :
    Except OntologyError Unit × OntologyManager :=
  match OntologyManager.load_domain_config env m.config with
  | Except.error e => (Except.error e, m)
  | Except.ok domain_config =>
    let m := { m with domain_config := domain_config }
    match env.shacl_validator_new m.config.core_shacl_path m.config.domain_shacl_path
        m.config.ontology_hash with
    | Except.error e =>
      (Except.error (OntologyError.OntologyLoadError "SHACL validator reload" e), m)
    | Except.ok validator =>
      let m := { m with validator := validator }
      match env.load_ontology_store_of m.config with
      | Except.error e => (Except.error e, m)
      | Except.ok ontology_store => (Except.ok (), { m with ontology_store := ontology_store })

/-- impl Clone for OntologyManager: config, domain_config, and validator are
field-cloned; the store cannot be cloned and is re-derived through
load_ontology_store, silently replaced by a fresh empty store
(Store::new().unwrap()) when the re-derivation fails. -/
def OntologyManager.cloneManager (env : FsEnv) (m : OntologyManager) : OntologyManager :=
  let ontology_store :=
    match env.load_ontology_store_of m.config with
    | Except.ok s => s
    | Except.error _ => Store.emptyStore
  { config := m.config
    domain_config := m.domain_config
    validator := m.validator
    ontology_store := ontology_store }

/-- The class-count SPARQL query text from get_ontology_stats. -/
def class_query : String :=
  "\n            SELECT (COUNT(DISTINCT ?class) AS ?count) WHERE \x7b\n                ?class a <http://www.w3.org/2002/07/owl#Class> .\n            \x7d\n        "

/-- The property-count SPARQL query text from get_ontology_stats. -/
def property_query : String :=
  "\n            SELECT (COUNT(DISTINCT ?property) AS ?count) WHERE \x7b\n                \x7b ?property a <http://www.w3.org/2002/07/owl#ObjectProperty> \x7d UNION\n                \x7b ?property a <http://www.w3.org/2002/07/owl#DatatypeProperty> \x7d\n            \x7d\n        "

/-- The individual-count SPARQL query text from get_ontology_stats. -/
def individual_query : String :=
  "\n            SELECT (COUNT(DISTINCT ?individual) AS ?count) WHERE \x7b\n                ?individual a ?class .\n                ?class a <http://www.w3.org/2002/07/owl#Class> .\n            \x7d\n        "

/-- OntologyManager::get_ontology_stats. The manager's query_ontology method
(SPARQL execution over the external store) is supplied as a function; each of
the three counts is taken from the first line of the query output, trimmed
and parsed as u32, and left at zero when the query fails, returns nothing, or
does not parse. -/
def get_ontology_stats (query_ontology : String → Except OntologyError String) :
    Except OntologyError OntologyStats :=
  let stats := OntologyStats.new
  let stats :=
    match query_ontology class_query with
    | Except.ok result =>
      match (rustLines result).head? with
      | some count_str =>
        match parseU32 (trimS count_str) with
        | some count => { stats with class_count := count }
        | none => stats
      | none => stats
    | Except.error _ => stats
  let stats :=
    match query_ontology property_query with
    | Except.ok result =>
      match (rustLines result).head? with
      | some count_str =>
        match parseU32 (trimS count_str) with
        | some count => { stats with property_count := count }
        | none => stats
      | none => stats
    | Except.error _ => stats
  let stats :=
    match query_ontology individual_query with
    | Except.ok result =>
      match (rustLines result).head? with
      | some count_str =>
        match parseU32 (trimS count_str) with
        | some count => { stats with individual_count := count }
        | none => stats
      | none => stats
    | Except.error _ => stats
  Except.ok stats

/-- The count one statistics query contributes, per the specification: the
first output line, trimmed and parsed as an unsigned integer, if everything
succeeded. -/
def optCount (r : Except OntologyError String) : Option Nat :=
  match r with
  | Except.error _ => none
  | Except.ok result =>
    ((rustLines result).head?).bind (fun count_str => parseU32 (trimS count_str))

/-- Per-metric count with the zero default on any failure. -/
def countFromQuery (r : Except OntologyError String) : Nat := (optCount r).getD 0

/-- A concrete schema reference used by witnesses. -/
def cfg0 : OntologyConfig :=
  ⟨"ontologies/core.owl", "ontologies/domain.owl", "shapes/core.shacl",
   "shapes/domain.shacl", "h1"⟩

/-- A concrete manager used by witnesses. -/
def mgr0 : OntologyManager :=
  ⟨cfg0, DomainConfig.new "uht_manufacturing" "desc",
   ⟨"shapes/core.shacl", "shapes/domain.shacl", "h1"⟩, Store.emptyStore⟩

/-- The consistency error produced by mgr0 against the peer hash h2. -/
def err0 : ConsistencyError :=
  ConsistencyError.new "h1" "h2"
    ("Local ontology '" ++ "uht_manufacturing" ++
      "' does not match network ontology. All participants must use the same domain ontology.")

/-- A concrete environment whose validator construction fails. -/
def envBadValidator : FsEnv :=
  ⟨fun config => Except.ok config.domain_ontology_path,
   fun _ => none,
   fun _ _ _ => Except.error "shape file unreadable",
   fun _ => Except.ok Store.emptyStore⟩

/-- A concrete environment where every external step succeeds and the domain
ontology file is missing. -/
def envAllOk : FsEnv :=
  ⟨fun _ => Except.ok "uht_manufacturing",
   fun _ => none,
   fun c d h => Except.ok ⟨c, d, h⟩,
   fun _ => Except.ok ⟨["q1"]⟩⟩

/-- A concrete environment whose store re-derivation fails. -/
def envBadStore : FsEnv :=
  ⟨fun _ => Except.ok "uht_manufacturing",
   fun _ => none,
   fun c d h => Except.ok ⟨c, d, h⟩,
   fun _ => Except.error (OntologyError.OntologyLoadError "RDF store creation" "oom")⟩

/-- The freshly seeded domain configuration for the uht_manufacturing domain
(default description, standard transaction types, no rules). -/
def dcSeeded : DomainConfig :=
  standard_types.foldl DomainConfig.add_transaction_type
    (DomainConfig.new "uht_manufacturing"
      ("Domain configuration for " ++ "uht_manufacturing"))

/-! ## Theorems -/

/-! ### Claim C5: total entity count -/

/-- C5 counterexample: an OntologyStats value whose u32 counts sum past
2 ^ 32 wraps, so total_entities is not the exact sum of the three counts. -/
theorem c5_total_entities_counterexample :
    ¬ (OntologyStats.total_entities ⟨2 ^ 32 - 1, 1, 0⟩ = (2 ^ 32 - 1) + 1 + 0) := by
  decide

/-- C5 (amended): total_entities equals the sum of the three counts reduced
modulo 2 ^ 32 (u32 addition); whenever that sum is below 2 ^ 32 — in
particular when all three counts are zero — it equals the exact sum. -/
theorem c5_total_entities_sum (s : OntologyStats) :
    s.total_entities = (s.class_count + s.property_count + s.individual_count) % 2 ^ 32 ∧
    (s.class_count + s.property_count + s.individual_count < 2 ^ 32 →
      s.total_entities = s.class_count + s.property_count + s.individual_count) :=
  ⟨rfl, fun h => Nat.mod_eq_of_lt h⟩

/-- C5 witness: the amended claim evaluated at the all-zero statistics. -/
theorem c5_total_entities_sum_witness :
    OntologyStats.total_entities ⟨0, 0, 0⟩ = 0 + 0 + 0 :=
  (c5_total_entities_sum ⟨0, 0, 0⟩).2 (by decide)

theorem add_transaction_type_types (c : DomainConfig) (t : String) :
    (c.add_transaction_type t).supported_transaction_types =
      addT c.supported_transaction_types t := by
  unfold DomainConfig.add_transaction_type addT
  split <;> rfl

theorem add_transaction_type_name (c : DomainConfig) (t : String) :
    (c.add_transaction_type t).domain_name = c.domain_name := by
  unfold DomainConfig.add_transaction_type
  split <;> rfl

theorem add_transaction_type_description (c : DomainConfig) (t : String) :
    (c.add_transaction_type t).description = c.description := by
  unfold DomainConfig.add_transaction_type
  split <;> rfl

theorem add_transaction_type_rules (c : DomainConfig) (t : String) :
    (c.add_transaction_type t).validation_rules = c.validation_rules := by
  unfold DomainConfig.add_transaction_type
  split <;> rfl

theorem foldl_add_types (ts : List String) (c : DomainConfig) :
    (ts.foldl DomainConfig.add_transaction_type c).supported_transaction_types =
      ts.foldl addT c.supported_transaction_types := by
  induction ts generalizing c with
  | nil => rfl
  | cons t ts ih =>
    simp only [List.foldl_cons, ih, add_transaction_type_types]

theorem firstDedup_filter (p : String → Bool) (l : List String) :
    firstDedup (l.filter p) = (firstDedup l).filter p := by
  induction l with
  | nil => rfl
  | cons x xs ih =>
    cases hp : p x with
    | true =>
      simp only [List.filter_cons, hp, if_true, firstDedup, ih, List.filter_filter]
      congr 1
      apply List.filter_congr
      intro a _
      exact Bool.and_comm (a != x) (p a)
    | false =>
      simp only [List.filter_cons, hp, Bool.false_eq_true, if_false, firstDedup, ih,
        List.filter_filter]
      apply List.filter_congr
      intro a _
      by_cases hax : a = x
      · subst hax
        simp [hp]
      · have hne : (a != x) = true := by simp [hax]
        simp [hne]

theorem foldl_addT_eq (ts : List String) (l : List String) :
    ts.foldl addT l = l ++ firstDedup (ts.filter (fun t => !l.contains t)) := by
  induction ts generalizing l with
  | nil => simp [firstDedup]
  | cons t ts ih =>
    by_cases hc : l.contains t
    · simp only [List.foldl_cons, addT, hc, if_true, ih, List.filter_cons,
        Bool.not_true, Bool.false_eq_true, if_false]
    · have hstep : addT l t = l ++ [t] := by
        unfold addT
        rw [if_neg hc]
      rw [List.foldl_cons, hstep, ih]
      have hpred : (fun u => !(l ++ [t]).contains u) =
          (fun u => (!l.contains u) && (u != t)) := by
        funext u
        have happ : (l ++ [t]).contains u = (l.contains u || u == t) := by
          simp only [List.contains_eq_any_beq, List.any_append, List.any_cons,
            List.any_nil, Bool.or_false]
        rw [happ, Bool.not_or, bne]
      rw [hpred]
      have hff : ts.filter (fun u => (!l.contains u) && (u != t)) =
          (ts.filter (fun u => !l.contains u)).filter (fun u => u != t) := by
        rw [List.filter_filter]
        apply List.filter_congr
        intro a _
        exact Bool.and_comm (!l.contains a) (a != t)
      rw [hff, firstDedup_filter]
      simp only [List.filter_cons, hc, Bool.not_false, if_true, Bool.false_eq_true,
        firstDedup, List.append_assoc, List.singleton_append]

theorem firstDedup_mem (t : String) (l : List String) : t ∈ firstDedup l ↔ t ∈ l := by
  induction l with
  | nil => simp [firstDedup]
  | cons x xs ih =>
    simp only [firstDedup, List.mem_cons, List.mem_filter, ih, bne_iff_ne]
    by_cases hx : t = x
    · simp [hx]
    · simp [hx]

theorem firstDedup_nodup (l : List String) : (firstDedup l).Nodup := by
  induction l with
  | nil => exact List.nodup_nil
  | cons x xs ih =>
    refine List.nodup_cons.mpr ⟨?_, ih.filter _⟩
    intro hmem
    have := (List.mem_filter.mp hmem).2
    simp [bne_iff_ne] at this

/-- C6: starting from a fresh DomainConfig, after any sequence of
add_transaction_type calls, supports_transaction_type t holds iff t was
added; the resulting sequence is exactly the added types with only first
occurrences kept (first-insertion order), hence duplicate-free; and adding
an already-supported type is a no-op. -/
theorem c6_transaction_type_invariants (name desc : String) (ts : List String) :
    (∀ t, (ts.foldl DomainConfig.add_transaction_type
        (DomainConfig.new name desc)).supports_transaction_type t = true ↔ t ∈ ts) ∧
    (ts.foldl DomainConfig.add_transaction_type
        (DomainConfig.new name desc)).supported_transaction_types = firstDedup ts ∧
    (ts.foldl DomainConfig.add_transaction_type
        (DomainConfig.new name desc)).supported_transaction_types.Nodup ∧
    (∀ c : DomainConfig, ∀ t, c.supports_transaction_type t = true →
        c.add_transaction_type t = c) := by
  have htypes : (ts.foldl DomainConfig.add_transaction_type
      (DomainConfig.new name desc)).supported_transaction_types = firstDedup ts := by
    rw [foldl_add_types]
    have : (DomainConfig.new name desc).supported_transaction_types = [] := rfl
    rw [this, foldl_addT_eq]
    simp [List.filter_true]
  refine ⟨?_, htypes, ?_, ?_⟩
  · intro t
    unfold DomainConfig.supports_transaction_type
    rw [htypes]
    rw [show ((firstDedup ts).contains t = true) ↔ t ∈ firstDedup ts from List.elem_iff]
    exact firstDedup_mem t ts
  · rw [htypes]
    exact firstDedup_nodup ts
  · intro c t h
    unfold DomainConfig.supports_transaction_type at h
    unfold DomainConfig.add_transaction_type
    rw [if_pos h]

/-- C6 witness: adding an already-present type is a no-op on a concrete
configuration. -/
theorem c6_transaction_type_invariants_witness :
    ((DomainConfig.new "d" "e").add_transaction_type "Production").add_transaction_type
        "Production" = (DomainConfig.new "d" "e").add_transaction_type "Production" :=
  (c6_transaction_type_invariants "d" "e" []).2.2.2
    ((DomainConfig.new "d" "e").add_transaction_type "Production") "Production" (by decide)

/-! ### String-matching lemmas -/

theorem toList_append (a b : String) : (a ++ b).toList = a.toList ++ b.toList := by
  simp [String.toList, String.data_append]

theorem asString_toList (s : String) : s.toList.asString = s := rfl

theorem isPrefixL_append_self (p r : List Char) : isPrefixL p (p ++ r) = true := by
  induction p with
  | nil => rfl
  | cons a as ih => simp [isPrefixL, ih]

theorem containsL_of_occurrence (pat l : List Char) (i : Nat)
    (h : isPrefixL pat (l.drop i) = true) : containsL pat l = true := by
  induction l generalizing i with
  | nil =>
    have h0 : isPrefixL pat [] = true := by
      cases i <;> simpa using h
    simp [containsL, findSubL, h0]
  | cons c cs ih =>
    cases i with
    | zero =>
      simp only [List.drop_zero] at h
      simp [containsL, findSubL, h]
    | succ n =>
      have h' := ih n (by simpa using h)
      by_cases hp : isPrefixL pat (c :: cs) = true
      · simp [containsL, findSubL, hp]
      · unfold containsL at h' ⊢
        simp only [findSubL, hp, Bool.false_eq_true, if_false, Option.isSome_map']
        exact h'

theorem findSubL_first (pat l : List Char) (i : Nat)
    (hocc : isPrefixL pat (l.drop i) = true)
    (hfirst : ∀ j, j < i → isPrefixL pat (l.drop j) = false) :
    findSubL pat l = some i := by
  induction l generalizing i with
  | nil =>
    cases i with
    | zero =>
      simp only [List.drop_nil] at hocc
      simp [findSubL, hocc]
    | succ n =>
      exfalso
      have h0 := hfirst 0 (Nat.succ_pos n)
      simp only [List.drop_nil] at hocc h0
      rw [h0] at hocc
      cases hocc
  | cons c cs ih =>
    cases i with
    | zero =>
      simp only [List.drop_zero] at hocc
      simp [findSubL, hocc]
    | succ n =>
      have h0 : isPrefixL pat (c :: cs) = false := by
        have := hfirst 0 (Nat.succ_pos n)
        simpa using this
      have hrec : findSubL pat cs = some n := by
        apply ih n
        · simpa using hocc
        · intro j hj
          have := hfirst (j + 1) (Nat.succ_lt_succ hj)
          simpa using this
      simp [findSubL, h0, hrec]

theorem occurrence_of_findSubL (pat l : List Char) (i : Nat)
    (h : findSubL pat l = some i) : isPrefixL pat (l.drop i) = true := by
  induction l generalizing i with
  | nil =>
    by_cases hp : isPrefixL pat [] = true
    · simp only [findSubL, hp, if_true] at h
      injection h with h'
      subst h'
      simpa using hp
    · simp only [findSubL, hp, if_false] at h
      cases h
  | cons c cs ih =>
    by_cases hp : isPrefixL pat (c :: cs) = true
    · simp only [findSubL, hp, if_true] at h
      injection h with h'
      subst h'
      simpa using hp
    · simp only [findSubL, hp, Bool.false_eq_true, if_false] at h
      cases hfind : findSubL pat cs with
      | none => rw [hfind] at h; cases h
      | some m =>
        rw [hfind] at h
        simp only [Option.map_some'] at h
        injection h with h'
        subst h'
        simpa using ih m hfind

theorem isPrefixL_singleton (c : Char) (l : List Char) :
    isPrefixL [c] l = true ↔ l.head? = some c := by
  cases l with
  | nil => simp [isPrefixL]
  | cons b bs =>
    simp only [isPrefixL, Bool.and_true, List.head?_cons, Option.some.injEq, beq_iff_eq]
    exact eq_comm

theorem containsSubS_middle (a b c : String) : containsSubS (a ++ b ++ c) b = true := by
  unfold containsSubS
  rw [toList_append, toList_append]
  apply containsL_of_occurrence _ _ a.toList.length
  rw [List.append_assoc, List.drop_left]
  exact isPrefixL_append_self _ _

/-! ### Claim C2: consistency check -/

/-- C2: check_ontology_consistency succeeds exactly when the local hash
equals the peer hash; on mismatch the error carries both hashes unchanged and
a message that names the manager's domain. The method takes the manager by
shared reference in the source, so the manager itself is unchanged. -/
theorem c2_check_ontology_consistency (m : OntologyManager) (network_hash : String) :
    (m.check_ontology_consistency network_hash = Except.ok () ↔
      m.config.ontology_hash = network_hash) ∧
    (∀ e, m.check_ontology_consistency network_hash = Except.error e →
      e.local_hash = m.config.ontology_hash ∧
      e.network_hash = network_hash ∧
      e.message = "Local ontology '" ++ m.domain_config.domain_name ++
        "' does not match network ontology. All participants must use the same domain ontology." ∧
      containsSubS e.message m.domain_config.domain_name = true) := by
  unfold OntologyManager.check_ontology_consistency
  by_cases heq : m.config.ontology_hash = network_hash
  · rw [if_neg (not_not_intro heq)]
    constructor
    · exact ⟨fun _ => heq, fun _ => rfl⟩
    · intro e he
      cases he
  · rw [if_pos heq]
    constructor
    · constructor
      · intro h
        cases h
      · intro h
        exact absurd h heq
    · intro e he
      injection he with he'
      subst he'
      refine ⟨rfl, rfl, rfl, ?_⟩
      exact containsSubS_middle "Local ontology '" m.domain_config.domain_name
        "' does not match network ontology. All participants must use the same domain ontology."

/-- C2 witness: the error produced by a concrete manager against a mismatched
peer hash carries both hashes and a message containing the domain name. -/
theorem c2_check_ontology_consistency_witness :
    err0.local_hash = mgr0.config.ontology_hash ∧
    err0.network_hash = "h2" ∧
    err0.message = "Local ontology '" ++ mgr0.domain_config.domain_name ++
      "' does not match network ontology. All participants must use the same domain ontology." ∧
    containsSubS err0.message mgr0.domain_config.domain_name = true :=
  (c2_check_ontology_consistency mgr0 "h2").2 err0 (by decide)

/-! ### Claim C3: Turtle content markers take precedence -/

/-- C3: content containing the at-prefix marker anywhere, or whose trimmed
form starts with the at-prefix or at-base markers, is classified Turtle for
every file path — ahead of the XML and N-Triples content rules and of the
whole extension fallback. -/
theorem c3_detect_rdf_format_turtle (content file_path : String)
    (h : containsSubS content "@prefix" = true ∨
      startsWithS (trimS content) "@prefix" = true ∨
      startsWithS (trimS content) "@base" = true) :
    detect_rdf_format content file_path = RdfFormat.Turtle := by
  unfold detect_rdf_format
  rcases h with h | h | h <;> simp [h]

/-- C3 witness: Scenario D — Turtle content with an owl extension is detected
as Turtle. -/
theorem c3_detect_rdf_format_turtle_witness :
    detect_rdf_format "@prefix ex: <http://example.org/> ." "ontology.owl" =
      RdfFormat.Turtle :=
  c3_detect_rdf_format_turtle "@prefix ex: <http://example.org/> ." "ontology.owl"
    (Or.inl (by decide))

/-! ### Claim C10: clone by reconstruction -/

/-- C10: cloning is total and preserves config, domain_config, and validator;
the store is re-derived from the schema reference through the environment,
and a failed re-derivation silently yields a fresh empty store. -/
theorem c10_clone_by_reconstruction (env : FsEnv) (m : OntologyManager) :
    (OntologyManager.cloneManager env m).config = m.config ∧
    (OntologyManager.cloneManager env m).domain_config = m.domain_config ∧
    (OntologyManager.cloneManager env m).validator = m.validator ∧
    (∀ s, env.load_ontology_store_of m.config = Except.ok s →
      (OntologyManager.cloneManager env m).ontology_store = s) ∧
    (∀ e, env.load_ontology_store_of m.config = Except.error e →
      (OntologyManager.cloneManager env m).ontology_store = Store.emptyStore) := by
  refine ⟨rfl, rfl, rfl, ?_, ?_⟩
  · intro s hs
    simp [OntologyManager.cloneManager, hs]
  · intro e he
    simp [OntologyManager.cloneManager, he]

/-- C10 witness: under a failing store re-derivation the clone of a concrete
manager receives the fresh empty store. -/
theorem c10_clone_by_reconstruction_witness :
    (OntologyManager.cloneManager envBadStore mgr0).ontology_store = Store.emptyStore :=
  (c10_clone_by_reconstruction envBadStore mgr0).2.2.2.2
    (OntologyError.OntologyLoadError "RDF store creation" "oom") rfl

/-! ### Claim C1: reload is fail-fast but commits sub-steps as it goes -/

/-- C1 counterexample: with a concrete environment whose validator
construction fails, reload returns the error yet the manager's domain_config
has already been replaced — old and new state are mixed after the failed
reload, contradicting the all-or-nothing claim. -/
theorem c1_reload_counterexample :
    (OntologyManager.reload envBadValidator mgr0).1 =
      Except.error (OntologyError.OntologyLoadError "SHACL validator reload"
        "shape file unreadable") ∧
    (OntologyManager.reload envBadValidator mgr0).2.domain_config ≠ mgr0.domain_config := by
  constructor
  · rfl
  · decide

/-- C1 (amended): reload is fail-fast — the first failing sub-step's error is
returned (the validator error wrapped as a load error) — but sub-steps that
completed before the failure are already committed: a config-derivation
failure leaves the manager unchanged; a validator failure leaves the new
domain_config with the old validator and store; a store failure leaves the
new domain_config and validator with the old store; when all succeed, all
three components are replaced. -/
theorem c1_reload_failfast_commits (env : FsEnv) (m : OntologyManager) :
    (∀ e, OntologyManager.load_domain_config env m.config = Except.error e →
      OntologyManager.reload env m = (Except.error e, m)) ∧
    (∀ dc e, OntologyManager.load_domain_config env m.config = Except.ok dc →
      env.shacl_validator_new m.config.core_shacl_path m.config.domain_shacl_path
        m.config.ontology_hash = Except.error e →
      OntologyManager.reload env m =
        (Except.error (OntologyError.OntologyLoadError "SHACL validator reload" e),
          { m with domain_config := dc })) ∧
    (∀ dc v e, OntologyManager.load_domain_config env m.config = Except.ok dc →
      env.shacl_validator_new m.config.core_shacl_path m.config.domain_shacl_path
        m.config.ontology_hash = Except.ok v →
      env.load_ontology_store_of m.config = Except.error e →
      OntologyManager.reload env m =
        (Except.error e, { m with domain_config := dc, validator := v })) ∧
    (∀ dc v s, OntologyManager.load_domain_config env m.config = Except.ok dc →
      env.shacl_validator_new m.config.core_shacl_path m.config.domain_shacl_path
        m.config.ontology_hash = Except.ok v →
      env.load_ontology_store_of m.config = Except.ok s →
      OntologyManager.reload env m =
        (Except.ok (),
          { m with
              domain_config := dc
              validator := v
              ontology_store := s })) := by
  refine ⟨?_, ?_, ?_, ?_⟩
  · intro e he
    unfold OntologyManager.reload
    rw [he]
  · intro dc e h1 h2
    unfold OntologyManager.reload
    rw [h1]
    simp only [h2]
  · intro dc v e h1 h2 h3
    unfold OntologyManager.reload
    rw [h1]
    simp only [h2, h3]
  · intro dc v s h1 h2 h3
    unfold OntologyManager.reload
    rw [h1]
    simp only [h2, h3]

/-- C1 witness: with every external step succeeding, reload replaces all
three components of a concrete manager. -/
theorem c1_reload_failfast_commits_witness :
    OntologyManager.reload envAllOk mgr0 =
      (Except.ok (),
        { mgr0 with
            domain_config := dcSeeded
            validator := ⟨"shapes/core.shacl", "shapes/domain.shacl", "h1"⟩
            ontology_store := ⟨["q1"]⟩ }) :=
  (c1_reload_failfast_commits envAllOk mgr0).2.2.2 dcSeeded
    ⟨"shapes/core.shacl", "shapes/domain.shacl", "h1"⟩ ⟨["q1"]⟩ (by decide) rfl rfl

/-! ### Annotation-scan preservation lemmas -/

theorem add_validation_rule_types (c : DomainConfig) (k v : String) :
    (c.add_validation_rule k v).supported_transaction_types =
      c.supported_transaction_types := rfl

theorem add_validation_rule_description (c : DomainConfig) (k v : String) :
    (c.add_validation_rule k v).description = c.description := rfl

theorem scanLineTx_rules (dc : DomainConfig) (line : String) :
    (scanLineTx dc line).validation_rules = dc.validation_rules := by
  unfold scanLineTx
  split
  · cases (splitOnStrS line "# Transaction type:").get? 1 with
    | none => rfl
    | some tx => exact add_transaction_type_rules dc (trimS tx)
  · rfl

theorem scanLineTx_description (dc : DomainConfig) (line : String) :
    (scanLineTx dc line).description = dc.description := by
  unfold scanLineTx
  split
  · cases (splitOnStrS line "# Transaction type:").get? 1 with
    | none => rfl
    | some tx => exact add_transaction_type_description dc (trimS tx)
  · rfl

theorem scanLineRule_types (dc : DomainConfig) (line : String) :
    (scanLineRule dc line).supported_transaction_types =
      dc.supported_transaction_types := by
  unfold scanLineRule
  split
  · cases (splitOnStrS line "# Validation rule:").get? 1 with
    | none => rfl
    | some rp =>
      cases hsp : splitOnceChar rp '=' with
      | none => simp [hsp]
      | some nv => simp [hsp, add_validation_rule_types]
  · rfl

theorem scanLineRule_description (dc : DomainConfig) (line : String) :
    (scanLineRule dc line).description = dc.description := by
  unfold scanLineRule
  split
  · cases (splitOnStrS line "# Validation rule:").get? 1 with
    | none => rfl
    | some rp =>
      cases hsp : splitOnceChar rp '=' with
      | none => simp [hsp]
      | some nv => simp [hsp, add_validation_rule_description]
  · rfl

theorem scanLine_description (dc : DomainConfig) (line : String) :
    (scanLine dc line).description = dc.description := by
  unfold scanLine
  rw [scanLineRule_description, scanLineTx_description]

theorem foldl_scanLine_description (lines : List String) (dc : DomainConfig) :
    (lines.foldl scanLine dc).description = dc.description := by
  induction lines generalizing dc with
  | nil => rfl
  | cons line lines ih => rw [List.foldl_cons, ih, scanLine_description]

theorem types_prefix_addT (c : DomainConfig) (t : String) :
    c.supported_transaction_types <+:
      (c.add_transaction_type t).supported_transaction_types := by
  rw [add_transaction_type_types]
  unfold addT
  split
  · exact List.prefix_refl _
  · exact List.prefix_append _ _

theorem types_prefix_scanLineTx (dc : DomainConfig) (line : String) :
    dc.supported_transaction_types <+:
      (scanLineTx dc line).supported_transaction_types := by
  unfold scanLineTx
  split
  · cases (splitOnStrS line "# Transaction type:").get? 1 with
    | none => exact List.prefix_refl _
    | some tx => exact types_prefix_addT dc (trimS tx)
  · exact List.prefix_refl _

theorem types_prefix_scanLine (dc : DomainConfig) (line : String) :
    dc.supported_transaction_types <+:
      (scanLine dc line).supported_transaction_types := by
  unfold scanLine
  rw [scanLineRule_types]
  exact types_prefix_scanLineTx dc line

theorem types_prefix_foldl_scanLine (lines : List String) (dc : DomainConfig) :
    dc.supported_transaction_types <+:
      (lines.foldl scanLine dc).supported_transaction_types := by
  induction lines generalizing dc with
  | nil => exact List.prefix_refl _
  | cons line lines ih =>
    exact (types_prefix_scanLine dc line).trans (ih (scanLine dc line))

theorem types_prefix_extract (dc : DomainConfig) (content : String) :
    dc.supported_transaction_types <+:
      (extract_domain_info_from_ontology dc content).supported_transaction_types := by
  show dc.supported_transaction_types <+:
    ((rustLines content).foldl scanLine
      (match extractDescription content.toList with
       | some d => { dc with description := d.asString }
       | none => dc)).supported_transaction_types
  cases extractDescription content.toList with
  | none => exact types_prefix_foldl_scanLine _ _
  | some d =>
    exact types_prefix_foldl_scanLine (rustLines content)
      ({ dc with description := d.asString })

theorem take_eight_from_seeds (l : List String) (h : standard_types <+: l) :
    l.take 8 = standard_types := by
  obtain ⟨t, rfl⟩ := h
  rw [show (8 : Nat) = standard_types.length from rfl]
  exact List.take_left standard_types t

theorem seeded_types (name desc : String) :
    (standard_types.foldl DomainConfig.add_transaction_type
      (DomainConfig.new name desc)).supported_transaction_types = standard_types := by
  rw [foldl_add_types]
  rw [show (DomainConfig.new name desc).supported_transaction_types = [] from rfl]
  rw [foldl_addT_eq]
  rfl

/-! ### Claim C4: seeding of the domain configuration -/

/-- C4: given that the external domain-name accessor succeeds, the
domain-config loader succeeds for every ontology text (present or absent),
its transaction-type sequence always begins with the eight standard types in
order, and with the ontology file missing it is exactly the standard list. -/
theorem c4_load_domain_config_seeds (env : FsEnv) (config : OntologyConfig) (name : String)
    (hname : env.domain_name_of config = Except.ok name) :
    Except.map (fun dc => dc.supported_transaction_types.take 8)
        (OntologyManager.load_domain_config env config) = Except.ok standard_types ∧
    (env.read_file config.domain_ontology_path = none →
      Except.map (fun dc => dc.supported_transaction_types)
        (OntologyManager.load_domain_config env config) = Except.ok standard_types) := by
  constructor
  · cases hread : env.read_file config.domain_ontology_path with
    | none =>
      simp only [OntologyManager.load_domain_config, hname, hread, Except.map]
      rw [seeded_types]
      rfl
    | some content =>
      simp only [OntologyManager.load_domain_config, hname, hread, Except.map]
      have hpre := types_prefix_extract
        (standard_types.foldl DomainConfig.add_transaction_type
          (DomainConfig.new name ("Domain configuration for " ++ name))) content
      rw [seeded_types] at hpre
      rw [take_eight_from_seeds _ hpre]
  · intro hread
    simp only [OntologyManager.load_domain_config, hname, hread, Except.map]
    rw [seeded_types]

/-- C4 witness: at a concrete environment with the ontology file missing the
loader returns exactly the standard types. -/
theorem c4_load_domain_config_seeds_witness :
    Except.map (fun dc => dc.supported_transaction_types)
      (OntologyManager.load_domain_config envAllOk cfg0) = Except.ok standard_types :=
  (c4_load_domain_config_seeds envAllOk cfg0 "uht_manufacturing" rfl).2 rfl

/-! ### Claim C9: best-effort statistics -/

/-- C9: get_ontology_stats never fails: for every behavior of the underlying
query function it returns Ok, and each of the three counts is computed
independently from its own query — first output line, trimmed, parsed as u32
— defaulting to zero when the query errors, yields no line, or does not
parse, so a failure in one count never blocks the others. -/
theorem c9_get_ontology_stats_total (query_ontology : String → Except OntologyError String) :
    get_ontology_stats query_ontology =
      Except.ok
        ⟨countFromQuery (query_ontology class_query),
         countFromQuery (query_ontology property_query),
         countFromQuery (query_ontology individual_query)⟩ := by
  have hstep : ∀ (r : Except OntologyError String) (s : OntologyStats)
      (upd : Nat → OntologyStats),
      (match r with
       | Except.ok result =>
         match (rustLines result).head? with
         | some count_str =>
           match parseU32 (trimS count_str) with
           | some count => upd count
           | none => s
         | none => s
       | Except.error _ => s) =
      (match optCount r with
       | some count => upd count
       | none => s) := by
    intro r s upd
    cases r with
    | error e => rfl
    | ok result =>
      cases hh : (rustLines result).head? with
      | none => simp [optCount, hh]
      | some cs =>
        cases hp : parseU32 (trimS cs) with
        | none => simp [optCount, hh, hp]
        | some c => simp [optCount, hh, hp]
  simp only [get_ontology_stats]
  rw [hstep, hstep, hstep]
  unfold countFromQuery
  cases optCount (query_ontology class_query) <;>
    cases optCount (query_ontology property_query) <;>
      cases optCount (query_ontology individual_query) <;> rfl

/-! ### Split lemmas for the annotation markers -/

theorem splitOnStrL_not_contains (pat l : List Char)
    (h : containsL pat l = false) : splitOnStrL pat l = [l] := by
  induction l with
  | nil => rw [splitOnStrL]
  | cons c cs ih =>
    have hp : isPrefixL pat (c :: cs) = false := by
      cases hpp : isPrefixL pat (c :: cs)
      · rfl
      · have hc := containsL_of_occurrence pat (c :: cs) 0 (by simpa using hpp)
        simp [hc] at h
    have hcs : containsL pat cs = false := by
      unfold containsL at h ⊢
      simp only [findSubL, hp, Bool.false_eq_true, if_false, Option.isSome_map'] at h
      exact h
    conv_lhs => rw [splitOnStrL]
    simp only [hp, Bool.false_and, Bool.false_eq_true, if_false]
    rw [ih hcs]

theorem splitOnStrL_cons_self (pat rest : List Char) (hne : pat ≠ []) :
    splitOnStrL pat (pat ++ rest) = [] :: splitOnStrL pat rest := by
  cases pat with
  | nil => exact absurd rfl hne
  | cons p ps =>
    have hpre : isPrefixL (p :: ps) (p :: (ps ++ rest)) = true := by
      have h := isPrefixL_append_self (p :: ps) rest
      simpa using h
    rw [show (p :: ps) ++ rest = p :: (ps ++ rest) from rfl]
    conv_lhs => rw [splitOnStrL]
    simp only [hpre, List.isEmpty_cons, Bool.not_false, Bool.and_true, if_true]
    congr 1
    rw [show (p :: ps).length - 1 = ps.length from by simp, List.drop_left]

theorem findSubL_singleton_append (c : Char) (a b : List Char)
    (ha : ∀ x ∈ a, x ≠ c) :
    findSubL [c] (a ++ c :: b) = some a.length := by
  induction a with
  | nil =>
    have h : isPrefixL [c] (c :: b) = true := by simp [isPrefixL]
    simp [findSubL, h]
  | cons x xs ih =>
    have hx : x ≠ c := ha x (List.mem_cons_self x xs)
    have hpf : isPrefixL [c] (x :: (xs ++ c :: b)) = false := by
      simp only [isPrefixL, Bool.and_true]
      exact beq_eq_false_iff_ne.mpr (fun h => hx h.symm)
    have hrec := ih (fun y hy => ha y (List.mem_cons_of_mem x hy))
    rw [List.cons_append]
    simp only [findSubL, hpf, Bool.false_eq_true, if_false, hrec, Option.map_some',
      List.length_cons]

theorem splitOnceChar_exact (n v : String) (hn : ∀ x ∈ n.toList, x ≠ '=') :
    splitOnceChar (n ++ "=" ++ v) '=' = some (n, v) := by
  unfold splitOnceChar
  have hlist : (n ++ "=" ++ v).toList = n.toList ++ '=' :: v.toList := by
    rw [toList_append, toList_append, List.append_assoc]
    rfl
  rw [hlist, findSubL_singleton_append '=' n.toList v.toList hn]
  show some (((n.toList ++ '=' :: v.toList).take n.toList.length).asString,
    ((n.toList ++ '=' :: v.toList).drop (n.toList.length + 1)).asString) = some (n, v)
  rw [List.take_left, List.drop_append 1]
  rfl

theorem splitOnceChar_none (s : String) (h : ∀ x ∈ s.toList, x ≠ '=') :
    splitOnceChar s '=' = none := by
  unfold splitOnceChar
  cases hfind : findSubL ['='] s.toList with
  | none => rfl
  | some i =>
    exfalso
    have hocc := occurrence_of_findSubL _ _ _ hfind
    rw [isPrefixL_singleton, List.head?_drop] at hocc
    exact h '=' (List.getElem?_mem hocc) rfl

/-! ### Rule-map lemmas -/

theorem find_replace_of_any (k v : String) (m : List (String × String))
    (h : m.any (fun p => p.1 == k) = true) :
    (m.map (fun p => if p.1 == k then (k, v) else p)).find? (fun p => p.1 == k) =
      some (k, v) := by
  induction m with
  | nil => cases h
  | cons p ps ih =>
    by_cases hp : (p.1 == k) = true
    · simp only [List.map_cons, if_pos hp]
      apply List.find?_cons_of_pos
      simp
    · simp only [List.map_cons, if_neg hp]
      rw [List.find?_cons_of_neg _ (by simp [hp])]
      apply ih
      simpa [List.any_cons, hp] using h

theorem find_append_single (k v : String) (m : List (String × String))
    (h : m.any (fun p => p.1 == k) = false) :
    (m ++ [(k, v)]).find? (fun p => p.1 == k) = some (k, v) := by
  induction m with
  | nil =>
    apply List.find?_cons_of_pos
    simp
  | cons p ps ih =>
    have hp : (p.1 == k) = false := by
      cases hpp : (p.1 == k)
      · rfl
      · simp [List.any_cons, hpp] at h
    have hps : ps.any (fun p => p.1 == k) = false := by
      simpa [List.any_cons, hp] using h
    rw [List.cons_append, List.find?_cons_of_neg _ (by simp [hp])]
    exact ih hps

theorem lookupRule_insertRule (m : List (String × String)) (k v : String) :
    lookupRule (insertRule m k v) k = some v := by
  unfold insertRule lookupRule
  by_cases hany : m.any (fun p => p.1 == k) = true
  · rw [if_pos hany, find_replace_of_any k v m hany]
    rfl
  · rw [if_neg hany, find_append_single k v m (Bool.eq_false_iff.mpr hany)]
    rfl

/-! ### Claim C8: validation-rule annotation lines -/

/-- C8: in the annotation scan, a line made of the validation-rule marker
followed by NAME=VALUE (no equals sign in NAME, no second marker after the
first) inserts trimmed NAME mapped to trimmed VALUE into the rule map, and a
line made of the marker followed by text without an equals sign is skipped
silently, leaving the rule map unchanged. -/
theorem c8_validation_rule_lines (dc : DomainConfig) (n v rp : String) :
    (containsSubS (n ++ "=" ++ v) "# Validation rule:" = false →
      (∀ x ∈ n.toList, x ≠ '=') →
      (scanLine dc ("# Validation rule:" ++ (n ++ "=" ++ v))).validation_rules =
        insertRule dc.validation_rules (trimS n) (trimS v) ∧
      lookupRule (scanLine dc ("# Validation rule:" ++ (n ++ "=" ++ v))).validation_rules
        (trimS n) = some (trimS v)) ∧
    (containsSubS rp "# Validation rule:" = false →
      (∀ x ∈ rp.toList, x ≠ '=') →
      (scanLine dc ("# Validation rule:" ++ rp)).validation_rules =
        dc.validation_rules) := by
  have hne : ("# Validation rule:").toList ≠ ([] : List Char) := by decide
  have hstep : ∀ (dcs : DomainConfig) (rest : String),
      containsSubS rest "# Validation rule:" = false →
      (scanLineRule dcs ("# Validation rule:" ++ rest)).validation_rules =
        (match splitOnceChar rest '=' with
         | some nv => insertRule dcs.validation_rules (trimS nv.1) (trimS nv.2)
         | none => dcs.validation_rules) := by
    intro dcs rest hnc
    have hcond : containsSubS ("# Validation rule:" ++ rest) "# Validation rule:" = true := by
      unfold containsSubS
      rw [toList_append]
      exact containsL_of_occurrence _ _ 0 (by simpa using isPrefixL_append_self _ _)
    have hget : (splitOnStrS ("# Validation rule:" ++ rest) "# Validation rule:").get? 1 =
        some rest := by
      unfold splitOnStrS
      rw [toList_append, splitOnStrL_cons_self _ _ hne]
      unfold containsSubS at hnc
      rw [splitOnStrL_not_contains _ _ hnc]
      show some rest.toList.asString = some rest
      rw [asString_toList]
    unfold scanLineRule
    rw [if_pos hcond, hget]
    cases hsp : splitOnceChar rest '=' with
    | none => simp [hsp]
    | some nv => simp [hsp, DomainConfig.add_validation_rule]
  constructor
  · intro hnc hn
    have hsp := splitOnceChar_exact n v hn
    have h1 : (scanLine dc ("# Validation rule:" ++ (n ++ "=" ++ v))).validation_rules =
        insertRule dc.validation_rules (trimS n) (trimS v) := by
      unfold scanLine
      rw [hstep _ _ hnc, hsp]
      simp [scanLineTx_rules]
    refine ⟨h1, ?_⟩
    rw [h1]
    exact lookupRule_insertRule _ _ _
  · intro hnc hrp
    have hsp := splitOnceChar_none rp hrp
    unfold scanLine
    rw [hstep _ _ hnc, hsp]
    simp [scanLineTx_rules]

/-- C8 witness: Scenario C — a concrete max-temperature rule line inserts the
trimmed name and value into the rule map, where they can be looked up. -/
theorem c8_validation_rule_lines_witness :
    (scanLine (DomainConfig.new "d" "e")
        ("# Validation rule:" ++ (" max_temperature" ++ "=" ++ "100"))).validation_rules =
      insertRule (DomainConfig.new "d" "e").validation_rules (trimS " max_temperature")
        (trimS "100") ∧
    lookupRule (scanLine (DomainConfig.new "d" "e")
        ("# Validation rule:" ++ (" max_temperature" ++ "=" ++ "100"))).validation_rules
      (trimS " max_temperature") = some (trimS "100") :=
  (c8_validation_rule_lines (DomainConfig.new "d" "e") " max_temperature" "100" "").1
    (by decide) (by decide)

/-! ### Claim C7: description extraction -/

/-- C7: text without the rdfs:comment marker keeps the existing description;
when the marker first occurs at position i, the first quote at or after i is
at position j, and the next quote after j is at position k, the loader's
description becomes exactly the text strictly between those two quotes — the
first quoted string following the first occurrence of the marker, replacing
whatever description was there before. -/
theorem c7_description_extraction (content : String) (dc : DomainConfig) :
    (containsSubS content "rdfs:comment" = false →
      (extract_domain_info_from_ontology dc content).description = dc.description) ∧
    (∀ i j k : Nat,
      isPrefixL ("rdfs:comment".toList) (content.toList.drop i) = true →
      (∀ i', i' < i → isPrefixL ("rdfs:comment".toList) (content.toList.drop i') = false) →
      i ≤ j → content.toList[j]? = some '"' →
      (∀ m, m < j → i ≤ m → content.toList[m]? ≠ some '"') →
      j < k → content.toList[k]? = some '"' →
      (∀ m, m < k → j < m → content.toList[m]? ≠ some '"') →
      (extract_domain_info_from_ontology dc content).description =
        ((content.toList.drop (j + 1)).take (k - (j + 1))).asString) := by
  constructor
  · intro hnc
    have hdesc : extractDescription content.toList = none := by
      unfold containsSubS containsL at hnc
      unfold extractDescription
      cases hfind : findSubL ("rdfs:comment".toList) content.toList with
      | none => rfl
      | some i =>
        rw [hfind] at hnc
        cases hnc
    unfold extract_domain_info_from_ontology
    simp only [hdesc]
    rw [foldl_scanLine_description]
  · intro i j k hocc hfirst hij hj hmj hjk hk hmk
    have hfind0 : findSubL ("rdfs:comment".toList) content.toList = some i :=
      findSubL_first _ _ i hocc hfirst
    have h1 : findSubL ['"'] (content.toList.drop i) = some (j - i) := by
      apply findSubL_first
      · rw [isPrefixL_singleton, List.drop_drop, List.head?_drop]
        rw [show i + (j - i) = j from by omega]
        exact hj
      · intro q hq
        cases hb : isPrefixL ['"'] ((content.toList.drop i).drop q)
        · rfl
        · exfalso
          rw [isPrefixL_singleton, List.drop_drop, List.head?_drop] at hb
          exact hmj (i + q) (by omega) (by omega) hb
    have h2 : findSubL ['"'] (content.toList.drop (j + 1)) = some (k - (j + 1)) := by
      apply findSubL_first
      · rw [isPrefixL_singleton, List.drop_drop, List.head?_drop]
        rw [show j + 1 + (k - (j + 1)) = k from by omega]
        exact hk
      · intro q hq
        cases hb : isPrefixL ['"'] ((content.toList.drop (j + 1)).drop q)
        · rfl
        · exfalso
          rw [isPrefixL_singleton, List.drop_drop, List.head?_drop] at hb
          exact hmk (j + 1 + q) (by omega) (by omega) hb
    have hdesc : extractDescription content.toList =
        some ((content.toList.drop (j + 1)).take (k - (j + 1))) := by
      simp only [extractDescription, hfind0, h1]
      rw [show i + (j - i) + 1 = j + 1 from by omega]
      simp only [h2]
    unfold extract_domain_info_from_ontology
    simp only [hdesc]
    rw [foldl_scanLine_description]

/-- C7 witness: a concrete content where the marker occurs at position 0 and
the first following quoted string sits between positions 13 and 16; the
description becomes that quoted text. -/
theorem c7_description_extraction_witness :
    (extract_domain_info_from_ontology (DomainConfig.new "d" "e")
        "rdfs:comment \"ab\"").description =
      ((("rdfs:comment \"ab\"" : String).toList.drop (13 + 1)).take (16 - (13 + 1))).asString :=
  (c7_description_extraction "rdfs:comment \"ab\"" (DomainConfig.new "d" "e")).2 0 13 16
    (by decide) (by decide) (by decide) (by decide) (by decide) (by decide) (by decide)
    (by decide)
